import Mathlib

/-!
Verification of the Trading Knowledge Base core against its source.

The development shallowly embeds the Python source files:
  * `fin_research_project/src/fin_research_project/memory/STM.py`
  * `fin_research_project/src/fin_research_project/memory/LTM.py`
  * `fin_research_project/src/fin_research_project/tools/vector_search_tool.py`
  * `extract_and_index.py` (sequential ingestion loop)
  * `scripts/extract_and_index.py` (thread-pool ingestion)

Conventions: Python floats are modelled as `ℚ`; wall-clock times as `ℤ`;
Python dicts as insertion-ordered association lists with in-place update;
functions that can raise return `Except String`; external collaborators
(HTTP fetch, PDF text extraction, the sentence-transformer encoder, the
actual file system and Redis) are passed in as explicit parameters or
explicit state, exactly at the boundaries the source calls them.
-/

/-- Lookup in a Python dict modelled as an association list:
`d.get(k)` returning `None` when absent. -/
def dictGet {β : Type} (d : List (String × β)) (k : String) : Option β :=
  (d.find? (fun p => p.1 == k)).map (fun p => p.2)

/-- Lookup with default: Python `d.get(k, default)`. -/
def dictGetD {β : Type} (d : List (String × β)) (k : String) (v : β) : β :=
  (dictGet d k).getD v

/-- Update of a Python dict `d[k] = v`: in-place overwrite when the key is
present (dicts keep insertion order), append otherwise. -/
def dictSet {β : Type} (d : List (String × β)) (k : String) (v : β) :
    List (String × β) :=
  match d with
  | [] => [(k, v)]
  | p :: rest => if p.1 == k then (k, v) :: rest else p :: dictSet rest k v

/-- Python slice `l[-n:]` for a nonnegative `n`: the last `min n (length l)`
elements when `n > 0`, but the WHOLE list when `n = 0` (Python treats `-0`
as `0`, and `l[0:]` is `l`). This corner is load-bearing for `STM` with
`max_entries = 0`. -/
def pySliceLast {τ : Type} (l : List τ) (n : Nat) : List τ :=
  if n = 0 then l else l.drop (l.length - n)

/-- One record of `STM.conversation_buffer`: the dict built in
`STM.add_interaction` with keys `user`, `assistant`, `timestamp`,
`metadata` (`metadata or {}`). Stored values have type `α`. -/
structure Interaction (α : Type) where
  user : String
  assistant : String
  timestamp : Int
  metadata : List (String × α)
deriving Repr, DecidableEq

/-- Value stored in `STM.current_context`. `set_temp_data` stores the dict
with keys `value` and `expires_at`; `update_context` stores the raw value. -/
inductive CtxVal (α : Type) where
  | temp (value : α) (expires_at : Int)
  | plain (value : α)
deriving Repr, DecidableEq

/-- State of `STM.__init__`: `max_entries`, the conversation buffer and the
single flat `current_context` mapping. -/
structure STM (α : Type) where
  max_entries : Nat
  conversation_buffer : List (Interaction α)
  current_context : List (String × CtxVal α)
deriving Repr, DecidableEq

/-- Fresh short-term memory: `STM(max_entries)` with empty buffer and
empty context. -/
def STM.fresh (α : Type) (max_entries : Nat) : STM α :=
  ⟨max_entries, [], []⟩

/-- Embedding of `STM.add_interaction`: append the new interaction dict and
truncate with `self.conversation_buffer[-self.max_entries:]`. The call time
(`datetime.utcnow()`) is passed explicitly as `now`. -/
def STM.add_interaction {α : Type} (st : STM α) (user_input ai_response : String)
    (metadata : Option (List (String × α))) (now : Int) : STM α :=
  { st with conversation_buffer :=
      (pySliceLast
        (st.conversation_buffer ++
          [⟨user_input, ai_response, now, metadata.getD []⟩])
        st.max_entries) }

/-- Embedding of `STM.update_context`: `self.current_context[key] = value`. -/
def STM.update_context {α : Type} (st : STM α) (key : String) (value : α) :
    STM α :=
  { st with current_context := dictSet st.current_context key (.plain value) }

/-- Result of `STM.get_context`: the whole mapping when `key is None`, the
stored value when present, otherwise the caller's default. -/
inductive CtxResult (α : Type) where
  | wholeMap (m : List (String × CtxVal α))
  | stored (v : CtxVal α)
  | dflt (v : α)
deriving Repr, DecidableEq

/-- Embedding of `STM.get_context`. -/
def STM.get_context {α : Type} (st : STM α) (key : Option String) (default : α) :
    CtxResult α :=
  match key with
  | none => .wholeMap st.current_context
  | some k =>
    match dictGet st.current_context k with
    | some v => .stored v
    | none => .dflt default

/-- Embedding of `STM.clear_context`: `self.current_context = {}`. -/
def STM.clear_context {α : Type} (st : STM α) : STM α :=
  { st with current_context := [] }

/-- Embedding of `STM.set_temp_data`: store under key `"_temp_" + key` the
dict with `value` and `expires_at = time.time() + ttl`; the call time is
passed explicitly as `now`. -/
def STM.set_temp_data {α : Type} (st : STM α) (key : String) (value : α)
    (ttl : Int) (now : Int) : STM α :=
  { st with current_context :=
      dictSet st.current_context ("_temp_" ++ key) (.temp value (now + ttl)) }

/-- Embedding of `STM.get_temp_data`: return the stored value when the entry
exists and `expires_at > time.time()` strictly, else the default. A plain
(non-dict-shaped) value under a `_temp_` key would raise `KeyError` on
`temp_data['expires_at']` in the source, hence the `Except`. -/
def STM.get_temp_data {α : Type} (st : STM α) (key : String) (default : α)
    (now : Int) : Except String α :=
  match dictGet st.current_context ("_temp_" ++ key) with
  | none => .ok default
  | some (.temp v expires_at) =>
    .ok (if now < expires_at then v else default)
  | some (.plain _) => .error "KeyError: expires_at"

/-- Arguments of one `add_interaction` call, used to run call sequences. -/
structure CallArgs (α : Type) where
  user : String
  ai : String
  metadata : Option (List (String × α))
  now : Int
deriving Repr, DecidableEq

/-- Interaction record a single call appends before truncation. -/
def CallArgs.toInteraction {α : Type} (c : CallArgs α) : Interaction α :=
  ⟨c.user, c.ai, c.now, c.metadata.getD []⟩

/-- Run a sequence of `add_interaction` calls against an STM state. -/
def STM.runCalls {α : Type} (st : STM α) (calls : List (CallArgs α)) : STM α :=
  calls.foldl (fun s c => s.add_interaction c.user c.ai c.metadata c.now) st

/-- C5 counterexample input: a fresh STM with `max_entries = 0` and a single
`add_interaction` call. -/
def c5CounterState : STM Unit :=
  STM.runCalls (STM.fresh Unit 0) [⟨"hello", "hi", none, 0⟩]

/-- Python value as it reaches `os.path.join` in `LTM.cache_paper`. The
source line reads `os.path.join(self,dir,paper_id+'.txt')` — a comma where
`self.dir` was intended — so the call receives the `LTM` instance itself and
the builtin function `dir` as path components. -/
inductive PyVal where
  | str (s : String)
  | ltmObject
  | builtinDir
deriving Repr, DecidableEq

/-- Embedding of `os.path.join`: concatenates string components with `/`;
any component that is not path-like (an object, a builtin function) raises
`TypeError`. -/
def osPathJoin (parts : List PyVal) : Except String String := do
  let strs ← parts.mapM (fun p =>
    match p with
    | .str s => Except.ok s
    | _ => Except.error "TypeError: expected str, bytes or os.PathLike object")
  return String.intercalate "/" strs

/-- State touched by the `LTM` paper-cache methods: `self.dir`
(`os.path.dirname(data_directory)`), the files on disk, and the Redis
side index written by `self.r.set`. -/
structure LTMState where
  dir : String
  files : List (String × String)
  redis : List (String × String)
deriving Repr, DecidableEq

/-- Embedding of `LTM.cache_paper`, statement by statement:
`filepath = os.path.join(self,dir,paper_id+'.txt')` (with the source's
comma, so the join receives the object and the builtin), then write the
text to `filepath` and record `paper_id -> filepath` in Redis. The first
statement raises `TypeError`, so on the source as written no state is ever
reached past it. -/
def LTMState.cache_paper (st : LTMState) (paper_id text : String) :
    Except String LTMState := do
  let filepath ← osPathJoin [.ltmObject, .builtinDir, .str (paper_id ++ ".txt")]
  let st1 := { st with files := dictSet st.files filepath text }
  return { st1 with redis := dictSet st1.redis paper_id filepath }

/-- Embedding of `LTM.retreive_paper_from_cache`: build
`os.path.join(self.dir, paper_id + '.txt')` (this method spells `self.dir`
correctly), return the file's text when it exists, else the explicit
not-found message. The existence check precedes the open, so the method
never raises; its result type is plain `String`. -/
def LTMState.retreive_paper_from_cache (st : LTMState) (paper_id : String) :
    String :=
  let filepath := st.dir ++ "/" ++ paper_id ++ ".txt"
  match dictGet st.files filepath with
  | none => "requested file: " ++ paper_id ++ " not found in cache"
  | some text => text

/-- Cache round-trip as the spec scenario runs it: cache, then retrieve
from the resulting state (on error the state is unchanged, as the raise
happens before any write). -/
def LTMState.cacheThenRetrieve (st : LTMState) (paper_id text : String) :
    String :=
  match st.cache_paper paper_id text with
  | .ok st1 => st1.retreive_paper_from_cache paper_id
  | .error _ => st.retreive_paper_from_cache paper_id

/-- Row of the `conversation_history` table (schema of
`_create_tables_if_not_exists`): serial id, a 256-dim embedding, question
and answer text, and the source paper ids. Embedding components are
modelled as `ℚ`. -/
structure ConvRecord where
  id : Nat
  question_embedding : List ℚ
  question_text : String
  answer_text : String
  source_paper_ids : List String
deriving Repr, DecidableEq

/-- Squared Euclidean distance between two embeddings (componentwise over
the common dimension). The pgvector operator `<->` computes its square
root; all comparisons and orderings on `<->` are equivalently computed on
the square, which keeps the embedding executable. -/
def sqDist (a b : List ℚ) : ℚ :=
  ((a.zip b).map (fun p => (p.1 - p.2) ^ 2)).sum

/-- Predicate of the query's `WHERE question_embedding <-> %s <= %s` clause:
the Euclidean distance is within `maxd` exactly when `maxd` is nonnegative
and the squared distance is at most `maxd ^ 2` (see
`distWithin_iff_sqrt_le`). -/
def distWithin (e q : List ℚ) (maxd : ℚ) : Bool :=
  decide (0 ≤ maxd ∧ sqDist e q ≤ maxd ^ 2)

/-- Embedding of `LTM.get_similar_conversations`: the SQL
`SELECT ... WHERE question_embedding <-> q <= max_distance
ORDER BY distance ASC LIMIT limit` read over a table state — filter rows
within `max_distance`, sort ascending by distance to the query embedding,
return the first `limit` rows. -/
def get_similar_conversations (table : List ConvRecord) (q : List ℚ)
    (max_distance : ℚ) (limit : Nat) : List ConvRecord :=
  ((table.filter
      (fun r => distWithin r.question_embedding q max_distance)).insertionSort
    (fun a b => sqDist a.question_embedding q ≤ sqDist b.question_embedding q)).take
    limit

/-- Concrete two-row table for the C7 witness. -/
def c7Table : List ConvRecord :=
  [⟨1, [0], "q one", "a one", []⟩, ⟨2, [3], "q two", "a two", []⟩]

/-- State loaded by `VectorSearchTool.__init__`: the FAISS index (`None`
when `read_index` failed, e.g. no index file yet — which is exactly the
zero-vector situation the ingestion scripts leave behind, since they only
write an index when at least one embedding exists) and the
position-to-paper mapping read from `arxiv_id_mapping.jsonl`, keyed by the
line number as a string. Each mapping value is the parsed JSON object,
itself a string-keyed dict. -/
structure VSState where
  index : Option (List (List ℚ))
  mapping : List (String × List (String × String))
deriving Repr, DecidableEq

/-- One entry of the `papers` list built by `VectorSearchTool._run`. -/
structure ResultEntry where
  rank : Nat
  arxiv_id : String
  title : String
  authors : String
  abstract : String
  url : String
  similarity_score : ℚ
deriving Repr, DecidableEq

/-- Payload of the JSON string `_run` returns on success. -/
structure SearchOutput where
  query : String
  num_results : Nat
  papers : List ResultEntry
deriving Repr, DecidableEq

/-- Largest single-precision float, the padding distance FAISS reports for
missing neighbours. -/
def floatMax : ℚ := 340282346638528859811704183484516925440

/-- Embedding of `faiss.IndexFlatL2.search` on one query: score every
stored vector by (squared) L2 distance, sort ascending — stable, so ties
keep index order — take `k`, and pad to exactly `k` entries with index `-1`
when the index holds fewer than `k` vectors. -/
def faissSearch (vecs : List (List ℚ)) (q : List ℚ) (k : Nat) :
    List (ℚ × Int) :=
  let scored := vecs.enum.map (fun p => (sqDist p.2 q, (p.1 : Int)))
  let top := (scored.insertionSort (fun a b => a.1 ≤ b.1)).take k
  top ++ List.replicate (k - top.length) (floatMax, -1)

/-- Embedding of `VectorSearchTool._run`: the guard
`if not self.index or not self.mapping` returns the initialization error
string (`self.index` is falsy only when it is `None`; the mapping dict is
falsy when empty); otherwise encode the query, search, and keep — with
their 1-based rank in the raw hit list — the hits whose index appears in
the mapping, scoring each as `1 - distance`. -/
def vsRun (enc : String → List ℚ) (st : VSState) (query : String)
    (num_results : Nat) : Except String SearchOutput :=
  match st.index with
  | none => .error "Error: Vector database not properly initialized"
  | some vecs =>
    if st.mapping.isEmpty then
      .error "Error: Vector database not properly initialized"
    else
      let hits := faissSearch vecs (enc query) num_results
      let results := hits.enum.filterMap (fun p =>
        match dictGet st.mapping (toString p.2.2) with
        | none => none
        | some info =>
          some ⟨p.1 + 1,
            dictGetD info "id" "Unknown",
            dictGetD info "title" "Unknown",
            dictGetD info "authors" "Unknown",
            dictGetD info "abstract" "Unknown",
            "https://arxiv.org/pdf/" ++ dictGetD info "id" "",
            1 - p.2.1⟩)
      .ok ⟨query, results.length, results⟩

/-- One entry of `arxiv_qfin_index.json` as the ingestion scripts read it:
`paper['id']` and `paper['pdf_url']`. -/
structure Paper where
  id : String
  pdf_url : String
deriving Repr, DecidableEq

/-- One line of the id mapping (`arxiv_id_mapping.json` /
`arxiv_id_mapping.jsonl`): the dict `{'id': ..., 'abstract': ...}`. -/
structure MappingLine where
  id : String
  abstract : String
deriving Repr, DecidableEq

/-- Per-document pipeline shared by both ingestion scripts: download
(`download_pdf_to_memory`, external HTTP fetch passed in as `fetch`),
extract the abstract (`extract_abstract_from_memory`, external PDF parsing
passed in as `extract`), and reject when the result is missing, empty or
shorter than 20 characters (`if not abstract or len(abstract) < 20`).
Returns the abstract of a successfully processed paper. -/
def paperAbstract (fetch : String → Option String)
    (extract : String → Option String) (p : Paper) : Option String :=
  match fetch p.pdf_url with
  | none => none
  | some pdf_bytes =>
    match extract pdf_bytes with
    | none => none
    | some abstract =>
      if abstract.length < 20 then none else some abstract

/-- In-memory state of the sequential ingestion loop in
`extract_and_index.py`: the module-level `embeddings` and `id_mapping`
lists. -/
structure IngestState where
  embeddings : List (List ℚ)
  id_mapping : List MappingLine
deriving Repr, DecidableEq

/-- One iteration of the sequential loop: on any per-document failure
`continue` leaves both lists untouched; on success the embedding and the
mapping line are appended, one each. -/
def ingestStep (fetch extract : String → Option String)
    (enc : String → List ℚ) (st : IngestState) (p : Paper) : IngestState :=
  match paperAbstract fetch extract p with
  | none => st
  | some abstract =>
    ⟨st.embeddings ++ [enc abstract], st.id_mapping ++ [⟨p.id, abstract⟩]⟩

/-- The sequential ingestion loop from the empty module-level lists. -/
def ingestRun (fetch extract : String → Option String)
    (enc : String → List ℚ) (papers : List Paper) : IngestState :=
  papers.foldl (ingestStep fetch extract enc) ⟨[], []⟩

/-- Whole-script run of `extract_and_index.py`, which first truncates the
input with `papers = papers[:10]`. -/
def ingestMain (fetch extract : String → Option String)
    (enc : String → List ℚ) (papers : List Paper) : IngestState :=
  ingestRun fetch extract enc (papers.take 10)

/-- Observable event of the thread-pool run in
`scripts/extract_and_index.py`: a worker's catalog write — the
`with write_lock: f.write(json.dumps(...))` inside `process_paper` — or the
completion of a paper's future, the order in which
`concurrent.futures.as_completed` hands it to the main thread. -/
inductive IngestEvent where
  | write (id : String)
  | complete (id : String)
deriving Repr, DecidableEq

/-- Ids of the papers that pass every per-document step. -/
def successIds (fetch extract : String → Option String)
    (papers : List Paper) : List String :=
  (papers.filter (fun p => (paperAbstract fetch extract p).isSome)).map
    (fun p => p.id)

/-- Catalog-write order recorded in an event trace. -/
def writesOf (es : List IngestEvent) : List String :=
  es.filterMap (fun e => match e with | .write i => some i | _ => none)

/-- Future-completion order recorded in an event trace. -/
def completesOf (es : List IngestEvent) : List String :=
  es.filterMap (fun e => match e with | .complete i => some i | _ => none)

/-- Same multiset of ids. -/
def sameIds (as bs : List String) : Bool :=
  as.length == bs.length && as.all (fun a => as.count a == bs.count a) &&
    bs.all (fun b => as.count b == bs.count b)

/-- Event trace a ThreadPoolExecutor run can actually produce: every
successful paper writes its catalog line exactly once and every submitted
paper's future completes exactly once, and each successful paper's catalog
write happens before its own future completes (the write is the worker's
last action before returning the embedding). Nothing constrains the
INTERLEAVING across workers: the lock serializes only the writes
themselves. -/
def validSchedule (fetch extract : String → Option String)
    (papers : List Paper) (es : List IngestEvent) : Bool :=
  sameIds (writesOf es) (successIds fetch extract papers) &&
  sameIds (completesOf es) (papers.map (fun p => p.id)) &&
  (successIds fetch extract papers).all (fun i =>
    es.findIdx (fun e => e == .write i) <
      es.findIdx (fun e => e == .complete i))

/-- Catalog line a write event with id `i` contributes: the mapping line of
the (successfully processed) paper carrying that id. -/
def lineOfId (fetch extract : String → Option String)
    (papers : List Paper) (i : String) : Option MappingLine :=
  match papers.find? (fun p => p.id == i) with
  | none => none
  | some p => (paperAbstract fetch extract p).map (fun a => MappingLine.mk i a)

/-- Embedding a completion event with id `i` contributes: `None` futures
(failed papers) contribute nothing. -/
def vecOfId (fetch extract : String → Option String)
    (enc : String → List ℚ) (papers : List Paper) (i : String) :
    Option (List ℚ) :=
  match papers.find? (fun p => p.id == i) with
  | none => none
  | some p => (paperAbstract fetch extract p).map enc

/-- Catalog (`arxiv_id_mapping.jsonl`) contents after the run: one line per
successful paper, in catalog-write order. -/
def catalogOf (fetch extract : String → Option String)
    (papers : List Paper) (es : List IngestEvent) : List MappingLine :=
  es.filterMap (fun e =>
    match e with
    | .write i => lineOfId fetch extract papers i
    | _ => none)

/-- Vector-store contents after the run: the main thread appends each
non-`None` embedding in `as_completed` order, then `index.add`s the list,
so vector positions follow future-completion order. -/
def vectorsOf (fetch extract : String → Option String)
    (enc : String → List ℚ) (papers : List Paper)
    (es : List IngestEvent) : List (List ℚ) :=
  es.filterMap (fun e =>
    match e with
    | .complete i => vecOfId fetch extract enc papers i
    | _ => none)

/-- Fetch collaborator for the C1 run: every download succeeds, returning
the url as the raw bytes. -/
def c1Fetch : String → Option String := fun b => some b

/-- Extractor for the C1 run: extraction succeeds verbatim. -/
def c1Extract : String → Option String := fun b => some b

/-- Encoder for the C1 run: injective on the two abstracts involved. -/
def c1Enc : String → List ℚ := fun s => [(s.length : ℚ)]

/-- First paper of the C1 run; its abstract has 24 characters. -/
def c1PaperA : Paper := ⟨"2301.00001", "aaaaaaaaaaaaaaaaaaaaaaaa"⟩

/-- Second paper of the C1 run; its abstract has 30 characters. -/
def c1PaperB : Paper := ⟨"2301.00002", "bbbbbbbbbbbbbbbbbbbbbbbbbbbbbb"⟩

/-- Failing schedule: worker A acquires the write lock first, then worker
B writes AND its future completes before A's does (A is descheduled between
releasing the lock and returning). Every per-worker ordering constraint is
respected. -/
def c1Schedule : List IngestEvent :=
  [.write "2301.00001", .write "2301.00002",
   .complete "2301.00002", .complete "2301.00001"]

/-- Fetch collaborator for the C2 witness: the url `bad` fails, everything
else downloads verbatim. -/
def c2Fetch : String → Option String :=
  fun u => if u == "bad" then none else some u

/-- Paper whose fetch fails in the C2 witness. -/
def c2FailPaper : Paper := ⟨"F", "bad"⟩

/-- Single successfully processed paper of the C2 witness run. -/
def c2Papers : List Paper := [⟨"2301.00003", "cccccccccccccccccccccccc"⟩]

/-- Schedule of the C2 witness run: one write, then its completion. -/
def c2Schedule : List IngestEvent :=
  [.write "2301.00003", .complete "2301.00003"]

theorem pySliceLast_absorb {τ : Type} (xs : List τ) (y : τ) (n : Nat) :
    pySliceLast (pySliceLast xs n ++ [y]) n = pySliceLast (xs ++ [y]) n := by
  rcases Nat.eq_zero_or_pos n with h0 | hpos
  · simp [pySliceLast, h0]
  · have hn : n ≠ 0 := Nat.pos_iff_ne_zero.mp hpos
    rcases Nat.le_total xs.length n with hle | hge
    · have hinner : pySliceLast xs n = xs := by
        simp [pySliceLast, hn, Nat.sub_eq_zero_of_le hle]
      rw [hinner]
    · have hinner : pySliceLast xs n = xs.drop (xs.length - n) := by
        simp [pySliceLast, hn]
      have hlen : (xs.drop (xs.length - n)).length = n := by
        rw [List.length_drop]
        omega
      rw [hinner]
      unfold pySliceLast
      rw [if_neg hn, if_neg hn, List.length_append, List.length_append, hlen]
      have hy : ([y] : List τ).length = 1 := rfl
      rw [hy]
      have e1 : n + 1 - n = 1 := by omega
      have e2 : xs.length + 1 - n = (xs.length - n) + 1 := by omega
      rw [e1, e2]
      rw [List.drop_append_of_le_length (by omega),
        List.drop_append_of_le_length (by omega)]
      rw [List.drop_drop]

theorem STM.runCalls_max_entries {α : Type} (calls : List (CallArgs α))
    (st : STM α) : (STM.runCalls st calls).max_entries = st.max_entries := by
  induction calls generalizing st with
  | nil => rfl
  | cons c cs ih =>
    simp only [STM.runCalls, List.foldl_cons] at *
    rw [ih]
    rfl

theorem STM.runCalls_buffer_general {α : Type} (calls : List (CallArgs α))
    (k : Nat) (buf : List (Interaction α)) (ctx : List (String × CtxVal α)) :
    (STM.runCalls ⟨k, pySliceLast buf k, ctx⟩ calls).conversation_buffer =
      pySliceLast (buf ++ calls.map CallArgs.toInteraction) k := by
  induction calls generalizing buf with
  | nil => simp [STM.runCalls]
  | cons c cs ih =>
    have step :
        STM.add_interaction (⟨k, pySliceLast buf k, ctx⟩ : STM α)
          c.user c.ai c.metadata c.now =
        ⟨k, pySliceLast (buf ++ [c.toInteraction]) k, ctx⟩ := by
      simp only [STM.add_interaction, CallArgs.toInteraction]
      rw [pySliceLast_absorb]
    calc (STM.runCalls (⟨k, pySliceLast buf k, ctx⟩ : STM α)
            (c :: cs)).conversation_buffer
        = (STM.runCalls (⟨k, pySliceLast (buf ++ [c.toInteraction]) k, ctx⟩ :
            STM α) cs).conversation_buffer := by
          simp only [STM.runCalls, List.foldl_cons]
          rw [step]
      _ = pySliceLast ((buf ++ [c.toInteraction]) ++
            cs.map CallArgs.toInteraction) k := ih _
      _ = pySliceLast (buf ++ (c :: cs).map CallArgs.toInteraction) k := by
          rw [List.append_assoc]
          rfl

theorem STM.runCalls_buffer {α : Type} (k : Nat) (calls : List (CallArgs α)) :
    (STM.runCalls (STM.fresh α k) calls).conversation_buffer =
      pySliceLast (calls.map CallArgs.toInteraction) k := by
  have h := STM.runCalls_buffer_general calls k [] []
  have he : pySliceLast ([] : List (Interaction α)) k = [] := by
    unfold pySliceLast
    rcases Nat.eq_zero_or_pos k with h0 | hpos <;> simp [*]
  rw [he] at h
  simpa [STM.fresh] using h

theorem find?_dictSet_self {β : Type} (d : List (String × β)) (k : String)
    (v : β) : List.find? (fun p => p.1 == k) (dictSet d k v) = some (k, v) := by
  induction d with
  | nil => simp [dictSet, List.find?]
  | cons p rest ih =>
    by_cases hp : p.1 = k
    · simp [dictSet, hp, List.find?]
    · have hp' : (p.1 == k) = false := beq_false_of_ne hp
      simp [dictSet, hp', List.find?_cons, ih]

theorem dictGet_dictSet_self {β : Type} (d : List (String × β)) (k : String)
    (v : β) : dictGet (dictSet d k v) k = some v := by
  unfold dictGet
  rw [find?_dictSet_self]
  rfl

/-- C5: the claim quantifies over EVERY STM instance, but for the instance
with `max_entries = 0` and `m = 1`, after `max_entries + m = 1` call the
buffer has length 1, not `max_entries = 0`: the claim is false as stated. -/
theorem c5_fifo_counterexample :
    c5CounterState.conversation_buffer.length = 1 ∧ (1 : Nat) ≠ 0 := by
  constructor
  · rfl
  · decide

/-- C5 (amended with `max_entries ≥ 1`): starting from a fresh STM with
`max_entries = k ≥ 1`, after `k + m` calls to `add_interaction` (with
`m ≥ 1`) the buffer has length exactly `k`, and `buffer[0]` is the
interaction appended by call number `m + 1` (1-based), i.e. the call at
0-based position `m`: FIFO eviction by insertion order. -/
theorem stm_fifo_eviction {α : Type} (k m : Nat) (calls : List (CallArgs α))
    (hk : 1 ≤ k) (hm : 1 ≤ m) (hlen : calls.length = k + m) :
    (STM.runCalls (STM.fresh α k) calls).conversation_buffer.length = k ∧
    (STM.runCalls (STM.fresh α k) calls).conversation_buffer.head? =
      (calls.get? m).map CallArgs.toInteraction := by
  have hb := STM.runCalls_buffer k calls
  have hk0 : k ≠ 0 := by omega
  have hml : (calls.map CallArgs.toInteraction).length = k + m := by
    rw [List.length_map, hlen]
  have hslice : pySliceLast (calls.map CallArgs.toInteraction) k =
      (calls.map CallArgs.toInteraction).drop m := by
    unfold pySliceLast
    rw [if_neg hk0, hml]
    congr 1
    omega
  rw [hb, hslice]
  constructor
  · rw [List.length_drop, hml]
    omega
  · rw [List.head?_drop, List.getElem?_map, List.get?_eq_getElem?]

/-- C5 witness: `max_entries = 1`, `m = 1`, two calls; the buffer keeps
exactly the second call's interaction. -/
theorem stm_fifo_eviction_witness :
    (1 ≤ 1 ∧ ([⟨"u1", "a1", none, 0⟩, ⟨"u2", "a2", none, 1⟩] :
        List (CallArgs Unit)).length = 1 + 1) ∧
    (STM.runCalls (STM.fresh Unit 1)
        [⟨"u1", "a1", none, 0⟩, ⟨"u2", "a2", none, 1⟩]).conversation_buffer.length
      = 1 ∧
    (STM.runCalls (STM.fresh Unit 1)
        [⟨"u1", "a1", none, 0⟩, ⟨"u2", "a2", none, 1⟩]).conversation_buffer.head?
      = (([⟨"u1", "a1", none, 0⟩, ⟨"u2", "a2", none, 1⟩] :
          List (CallArgs Unit)).get? 1).map CallArgs.toInteraction :=
  ⟨⟨by decide, by decide⟩,
    stm_fifo_eviction 1 1 [⟨"u1", "a1", none, 0⟩, ⟨"u2", "a2", none, 1⟩]
      (by decide) (by decide) (by decide)⟩

/-- C6: after `set_temp_data key value ttl` at time `now`, a
`get_temp_data key` at time `t` returns the stored value exactly when `t` is
strictly before the absolute expiry `now + ttl`, and otherwise the
caller-supplied default; and the entry remains stored in the context map
under `"_temp_" ++ key` with that absolute expiry — the map content does not
depend on the reading time, so an expired entry stays in memory until
overwritten (`get_temp_data` reads but never mutates the state). -/
theorem stm_temp_ttl {α : Type} (st : STM α) (key : String) (value : α)
    (ttl now t : Int) (default : α) :
    (st.set_temp_data key value ttl now).get_temp_data key default t =
      .ok (if t < now + ttl then value else default) ∧
    dictGet (st.set_temp_data key value ttl now).current_context
      ("_temp_" ++ key) = some (.temp value (now + ttl)) := by
  have hget : dictGet (st.set_temp_data key value ttl now).current_context
      ("_temp_" ++ key) = some (.temp value (now + ttl)) := by
    unfold STM.set_temp_data
    exact dictGet_dictSet_self _ _ _
  refine ⟨?_, hget⟩
  unfold STM.get_temp_data
  rw [hget]

/-- C9: with `max_entries = 0` the truncation slice
`conversation_buffer[-0:]` keeps the whole list, so `add_interaction` never
truncates — every call appends one interaction, and a fresh STM with
`max_entries = 0` has buffer length equal to the number of calls made. -/
theorem stm_zero_max_entries_unbounded {α : Type} (st : STM α)
    (u a : String) (md : Option (List (String × α))) (t : Int)
    (calls : List (CallArgs α)) (h : st.max_entries = 0) :
    (st.add_interaction u a md t).conversation_buffer =
      st.conversation_buffer ++ [⟨u, a, t, md.getD []⟩] ∧
    (STM.runCalls (STM.fresh α 0) calls).conversation_buffer.length =
      calls.length := by
  constructor
  · simp [STM.add_interaction, pySliceLast, h]
  · rw [STM.runCalls_buffer]
    simp [pySliceLast]

/-- C9 witness: one call against a fresh `max_entries = 0` STM grows the
buffer from 0 to 1 entry. -/
theorem stm_zero_max_entries_unbounded_witness :
    (STM.fresh Unit 0).max_entries = 0 ∧
    (((STM.fresh Unit 0).add_interaction "u" "a" none 0).conversation_buffer =
        (STM.fresh Unit 0).conversation_buffer ++ [⟨"u", "a", 0, []⟩] ∧
      (STM.runCalls (STM.fresh Unit 0)
          [⟨"u", "a", none, 0⟩]).conversation_buffer.length =
        ([⟨"u", "a", none, 0⟩] : List (CallArgs Unit)).length) :=
  ⟨rfl, stm_zero_max_entries_unbounded (STM.fresh Unit 0) "u" "a" none 0
    [⟨"u", "a", none, 0⟩] rfl⟩

/-- C10: ephemeral temp entries live in the single `current_context` mapping
under keys prefixed `"_temp_"`. Consequently (i) `get_context` with no key
returns that whole mapping, in which the temp entry is present — and since
neither the map nor `get_context` consults the clock, expired entries are
exposed too; (ii) `clear_context` empties that same mapping, after which
`get_temp_data` returns the caller default for every key and any time. -/
theorem stm_temp_shares_context {α : Type} (st : STM α) (key : String)
    (value : α) (ttl now : Int) (d : α) (st2 : STM α) (key2 : String)
    (d2 : α) (t2 : Int) :
    (st.set_temp_data key value ttl now).get_context none d =
      .wholeMap (st.set_temp_data key value ttl now).current_context ∧
    ("_temp_" ++ key, CtxVal.temp value (now + ttl)) ∈
      (st.set_temp_data key value ttl now).current_context ∧
    st2.clear_context.current_context = [] ∧
    st2.clear_context.get_temp_data key2 d2 t2 = .ok d2 := by
  refine ⟨rfl, ?_, rfl, rfl⟩
  have h := find?_dictSet_self st.current_context ("_temp_" ++ key)
    (CtxVal.temp value (now + ttl))
  exact List.mem_of_find?_eq_some h

/-- C3: the round-trip `cache_document` / `retrieve_document` fails on the
source. `cache_paper` evaluates `os.path.join(self,dir,...)` — the comma
typo passes the `LTM` object and the builtin `dir` — raising `TypeError`
before any write, so nothing is cached and retrieval returns the not-found
message, not the cached text. -/
theorem cache_roundtrip_code_bug :
    LTMState.cache_paper ⟨"data", [], []⟩ "1234.5678" "full text" =
      .error "TypeError: expected str, bytes or os.PathLike object" ∧
    LTMState.cacheThenRetrieve ⟨"data", [], []⟩ "1234.5678" "full text" =
      "requested file: 1234.5678 not found in cache" ∧
    ("requested file: 1234.5678 not found in cache" : String) ≠
      "full text" := by
  refine ⟨rfl, rfl, ?_⟩
  decide

/-- C8: retrieving a document id that has never been cached (no file for it
in the cache directory) returns the explicit not-found message naming the
id; the message is never the empty string, and the method returns it as an
ordinary value — its embedding is total with result type `String`, matching
the source's existence check before opening the file. -/
theorem retrieve_uncached_explicit (st : LTMState) (paper_id : String)
    (h : dictGet st.files (st.dir ++ "/" ++ paper_id ++ ".txt") = none) :
    st.retreive_paper_from_cache paper_id =
      "requested file: " ++ paper_id ++ " not found in cache" ∧
    "requested file: " ++ paper_id ++ " not found in cache" ≠ "" := by
  constructor
  · unfold LTMState.retreive_paper_from_cache
    simp only []
    rw [h]
  · intro hc
    have hd := congrArg String.data hc
    simp [String.data_append] at hd

/-- C8 witness: an empty cache directory and the spec's id `9999.0000`. -/
theorem retrieve_uncached_explicit_witness :
    dictGet (LTMState.mk "data" [] []).files
        ((LTMState.mk "data" [] []).dir ++ "/" ++ "9999.0000" ++ ".txt") =
      none ∧
    ((LTMState.mk "data" [] []).retreive_paper_from_cache "9999.0000" =
        "requested file: " ++ "9999.0000" ++ " not found in cache" ∧
      "requested file: " ++ "9999.0000" ++ " not found in cache" ≠ "") :=
  ⟨rfl, retrieve_uncached_explicit ⟨"data", [], []⟩ "9999.0000" rfl⟩

theorem distWithin_iff_sqrt_le (e q : List ℚ) (maxd : ℚ) :
    distWithin e q maxd = true ↔
      Real.sqrt ((sqDist e q : ℚ) : ℝ) ≤ ((maxd : ℚ) : ℝ) := by
  unfold distWithin
  rw [decide_eq_true_iff, Real.sqrt_le_iff]
  constructor
  · rintro ⟨h0, hle⟩
    exact ⟨by exact_mod_cast h0, by exact_mod_cast hle⟩
  · rintro ⟨h0, hle⟩
    exact ⟨by exact_mod_cast h0, by exact_mod_cast hle⟩

/-- C7: `get_similar` returns at most `limit` records, sorted in ascending
order of Euclidean distance to the query embedding, never includes a record
whose distance exceeds `max_distance`, and the result for a smaller limit
is exactly the prefix of the result for any larger limit (monotonic prefix
property). -/
theorem get_similar_spec (table : List ConvRecord) (q : List ℚ)
    (max_distance : ℚ) (limit limit2 : Nat) (h : limit ≤ limit2) :
    (get_similar_conversations table q max_distance limit).length ≤ limit ∧
    List.Sorted
      (fun a b : ConvRecord =>
        Real.sqrt ((sqDist a.question_embedding q : ℚ) : ℝ) ≤
          Real.sqrt ((sqDist b.question_embedding q : ℚ) : ℝ))
      (get_similar_conversations table q max_distance limit) ∧
    (∀ r ∈ get_similar_conversations table q max_distance limit,
      Real.sqrt ((sqDist r.question_embedding q : ℚ) : ℝ) ≤
        ((max_distance : ℚ) : ℝ)) ∧
    get_similar_conversations table q max_distance limit =
      (get_similar_conversations table q max_distance limit2).take limit := by
  classical
  set rel : ConvRecord → ConvRecord → Prop :=
    fun a b => sqDist a.question_embedding q ≤ sqDist b.question_embedding q
    with hrel
  haveI : IsTotal ConvRecord rel := ⟨fun a b => le_total _ _⟩
  haveI : IsTrans ConvRecord rel := ⟨fun a b c hab hbc => le_trans hab hbc⟩
  have hsorted : List.Sorted rel
      ((table.filter
          (fun r => distWithin r.question_embedding q max_distance)).insertionSort
        rel) :=
    List.sorted_insertionSort rel _
  refine ⟨?_, ?_, ?_, ?_⟩
  · exact List.length_take_le _ _
  · have hsub : List.Sorted rel
        (get_similar_conversations table q max_distance limit) :=
      List.Pairwise.sublist (List.take_sublist _ _) hsorted
    refine hsub.imp ?_
    intro a b hab
    exact Real.sqrt_le_sqrt (by exact_mod_cast hab)
  · intro r hr
    have hmem : r ∈ (table.filter
        (fun s => distWithin s.question_embedding q max_distance)).insertionSort
        rel := List.mem_of_mem_take hr
    have hmem2 : r ∈ table.filter
        (fun s => distWithin s.question_embedding q max_distance) :=
      (List.perm_insertionSort rel _).mem_iff.mp hmem
    have hw : distWithin r.question_embedding q max_distance = true :=
      (List.mem_filter.mp hmem2).2
    exact (distWithin_iff_sqrt_le _ _ _).mp hw
  · unfold get_similar_conversations
    rw [List.take_take]
    congr 1
    omega

/-- C7 witness: instantiate at a two-row table with `limit = 1 ≤ 2`. -/
theorem get_similar_spec_witness :
    (1 : Nat) ≤ 2 ∧
    ((get_similar_conversations c7Table [0] 5 1).length ≤ 1 ∧
    List.Sorted
      (fun a b : ConvRecord =>
        Real.sqrt ((sqDist a.question_embedding [0] : ℚ) : ℝ) ≤
          Real.sqrt ((sqDist b.question_embedding [0] : ℚ) : ℝ))
      (get_similar_conversations c7Table [0] 5 1) ∧
    (∀ r ∈ get_similar_conversations c7Table [0] 5 1,
      Real.sqrt ((sqDist r.question_embedding [0] : ℚ) : ℝ) ≤
        (((5 : ℚ) : ℚ) : ℝ)) ∧
    get_similar_conversations c7Table [0] 5 1 =
      (get_similar_conversations c7Table [0] 5 2).take 1) :=
  ⟨by decide, get_similar_spec c7Table [0] 5 1 2 (by decide)⟩

/-- C4 counterexample: with an index holding zero vectors (and hence the
empty mapping the ingestion scripts produce alongside it), `_run` returns
the initialization error string, not a successful empty result list. -/
theorem vs_empty_index_counterexample :
    vsRun (fun _ => []) ⟨some [], []⟩ "volatility" 5 =
      .error "Error: Vector database not properly initialized" ∧
    (Except.error "Error: Vector database not properly initialized" :
        Except String SearchOutput) ≠ .ok ⟨"volatility", 0, []⟩ := by
  exact ⟨rfl, fun h => Except.noConfusion h⟩

/-- C4 (amended): a search performed when the index failed to load
(`self.index is None`) or the mapping is empty — in particular whenever the
vector store holds zero vectors, since the scripts then write no index file
and no mapping lines — returns the error string
`Error: Vector database not properly initialized` rather than an empty
result sequence. -/
theorem vs_uninitialized_error (enc : String → List ℚ) (st : VSState)
    (query : String) (k : Nat) (h : st.index = none ∨ st.mapping = []) :
    vsRun enc st query k =
      .error "Error: Vector database not properly initialized" := by
  rcases h with h | h
  · unfold vsRun
    rw [h]
  · unfold vsRun
    cases hi : st.index with
    | none => rfl
    | some vecs =>
      rw [h]
      rfl

/-- C4 witness: the zero-vector state. -/
theorem vs_uninitialized_error_witness :
    ((⟨some [], []⟩ : VSState).index = none ∨
      (⟨some [], []⟩ : VSState).mapping = []) ∧
    vsRun (fun _ => []) ⟨some [], []⟩ "q" 3 =
      .error "Error: Vector database not properly initialized" :=
  ⟨Or.inr rfl,
    vs_uninitialized_error (fun _ => []) ⟨some [], []⟩ "q" 3 (Or.inr rfl)⟩

theorem ingestStep_preserves_len (fetch extract : String → Option String)
    (enc : String → List ℚ) (st : IngestState) (p : Paper)
    (h : st.embeddings.length = st.id_mapping.length) :
    (ingestStep fetch extract enc st p).embeddings.length =
      (ingestStep fetch extract enc st p).id_mapping.length := by
  unfold ingestStep
  cases paperAbstract fetch extract p with
  | none => exact h
  | some a => simp [h]

theorem ingestFold_len (fetch extract : String → Option String)
    (enc : String → List ℚ) (l : List Paper) (st : IngestState)
    (h : st.embeddings.length = st.id_mapping.length) :
    (l.foldl (ingestStep fetch extract enc) st).embeddings.length =
      (l.foldl (ingestStep fetch extract enc) st).id_mapping.length := by
  induction l generalizing st with
  | nil => exact h
  | cons p l ih =>
    exact ih _ (ingestStep_preserves_len fetch extract enc st p h)

theorem length_filterMap_of_isSome {β γ : Type} (h : β → Option γ)
    (l : List β) (hall : ∀ x ∈ l, (h x).isSome = true) :
    (l.filterMap h).length = l.length := by
  induction l with
  | nil => rfl
  | cons x l ih =>
    have hx := hall x (List.mem_cons_self x l)
    rcases Option.isSome_iff_exists.mp hx with ⟨y, hy⟩
    rw [List.filterMap_cons, hy]
    simp only [List.length_cons]
    rw [ih (fun z hz => hall z (List.mem_cons_of_mem x hz))]

theorem catalogOf_eq_writes (fetch extract : String → Option String)
    (papers : List Paper) (es : List IngestEvent) :
    catalogOf fetch extract papers es =
      (writesOf es).filterMap (lineOfId fetch extract papers) := by
  unfold catalogOf writesOf
  rw [List.filterMap_filterMap]
  apply List.filterMap_congr
  intro e _
  cases e <;> rfl

theorem vectorsOf_eq_completes (fetch extract : String → Option String)
    (enc : String → List ℚ) (papers : List Paper) (es : List IngestEvent) :
    vectorsOf fetch extract enc papers es =
      (completesOf es).filterMap (vecOfId fetch extract enc papers) := by
  unfold vectorsOf completesOf
  rw [List.filterMap_filterMap]
  apply List.filterMap_congr
  intro e _
  cases e <;> rfl

theorem sameIds_count (as bs : List String) (h : sameIds as bs = true)
    (a : String) : as.count a = bs.count a := by
  unfold sameIds at h
  simp only [Bool.and_eq_true, List.all_eq_true, beq_iff_eq] at h
  obtain ⟨⟨_, has⟩, hbs⟩ := h
  by_cases ha : a ∈ as
  · exact has a ha
  · by_cases hb : a ∈ bs
    · exact hbs a hb
    · rw [List.count_eq_zero.mpr ha, List.count_eq_zero.mpr hb]

theorem sameIds_perm (as bs : List String) (h : sameIds as bs = true) :
    as.Perm bs :=
  List.perm_iff_count.mpr (sameIds_count as bs h)

theorem find?_eq_self_of_nodup (papers : List Paper)
    (hnodup : (papers.map Paper.id).Nodup) (p : Paper) (hp : p ∈ papers) :
    papers.find? (fun x => x.id == p.id) = some p := by
  induction papers with
  | nil => cases hp
  | cons q rest ih =>
    rw [List.map_cons] at hnodup
    have hn := List.nodup_cons.mp hnodup
    rcases List.mem_cons.mp hp with rfl | hp2
    · exact List.find?_cons_of_pos _ (by simp)
    · have hq : q.id ≠ p.id := by
        intro he
        have hmem : p.id ∈ rest.map Paper.id := List.mem_map_of_mem _ hp2
        rw [← he] at hmem
        exact hn.1 hmem
      rw [List.find?_cons_of_neg _ (by simpa using hq)]
      exact ih hn.2 hp2

theorem mem_successIds (fetch extract : String → Option String)
    (papers : List Paper) (i : String)
    (hi : i ∈ successIds fetch extract papers) :
    ∃ p ∈ papers, p.id = i ∧ (paperAbstract fetch extract p).isSome = true := by
  unfold successIds at hi
  rcases List.mem_map.mp hi with ⟨p, hpf, rfl⟩
  rcases List.mem_filter.mp hpf with ⟨hpm, hps⟩
  exact ⟨p, hpm, rfl, hps⟩

theorem catalogOf_length (fetch extract : String → Option String)
    (papers : List Paper) (es : List IngestEvent)
    (hval : validSchedule fetch extract papers es = true)
    (hnodup : (papers.map Paper.id).Nodup) :
    (catalogOf fetch extract papers es).length =
      (successIds fetch extract papers).length := by
  unfold validSchedule at hval
  rw [Bool.and_eq_true, Bool.and_eq_true] at hval
  have hperm : (writesOf es).Perm (successIds fetch extract papers) :=
    sameIds_perm _ _ hval.1.1
  rw [catalogOf_eq_writes]
  rw [(hperm.filterMap (lineOfId fetch extract papers)).length_eq]
  apply length_filterMap_of_isSome
  intro i hi
  rcases mem_successIds fetch extract papers i hi with ⟨p, hpm, hpid, hps⟩
  rcases Option.isSome_iff_exists.mp hps with ⟨a, ha⟩
  unfold lineOfId
  subst hpid
  rw [find?_eq_self_of_nodup papers hnodup p hpm]
  simp [ha]

theorem length_filterMap_abstract (fetch extract : String → Option String)
    (enc : String → List ℚ) (papers : List Paper) :
    (papers.filterMap
      (fun p => (paperAbstract fetch extract p).map enc)).length =
      (papers.filter
        (fun p => (paperAbstract fetch extract p).isSome)).length := by
  induction papers with
  | nil => rfl
  | cons p rest ih =>
    rw [List.filterMap_cons, List.filter_cons]
    cases h : paperAbstract fetch extract p <;> simp [h, ih]

theorem vectorsOf_length (fetch extract : String → Option String)
    (enc : String → List ℚ) (papers : List Paper) (es : List IngestEvent)
    (hval : validSchedule fetch extract papers es = true)
    (hnodup : (papers.map Paper.id).Nodup) :
    (vectorsOf fetch extract enc papers es).length =
      (successIds fetch extract papers).length := by
  unfold validSchedule at hval
  rw [Bool.and_eq_true, Bool.and_eq_true] at hval
  have hperm : (completesOf es).Perm (papers.map Paper.id) :=
    sameIds_perm _ _ hval.1.2
  rw [vectorsOf_eq_completes]
  rw [(hperm.filterMap (vecOfId fetch extract enc papers)).length_eq]
  rw [List.filterMap_map]
  have hcongr : papers.filterMap
      ((vecOfId fetch extract enc papers) ∘ Paper.id) =
      papers.filterMap (fun p => (paperAbstract fetch extract p).map enc) := by
    apply List.filterMap_congr
    intro p hp
    show vecOfId fetch extract enc papers p.id = _
    unfold vecOfId
    rw [find?_eq_self_of_nodup papers hnodup p hp]
  rw [hcongr, length_filterMap_abstract]
  unfold successIds
  rw [List.length_map]

/-- C2: after any prefix of a sequential ingestion run the number of stored
embeddings equals the number of catalog (id-mapping) entries; a
per-document failure — fetch failure, extraction failure, or an abstract
shorter than the 20-character threshold — leaves both structures exactly
as they were, adding an entry to neither; and in the thread-pool script,
for every schedulable run over papers with distinct ids, the final number
of vectors equals the final number of catalog lines (each success
contributes exactly one to each). -/
theorem ingest_lengths_equal (fetch extract : String → Option String)
    (enc : String → List ℚ) (papers : List Paper) (k : Nat) (p : Paper)
    (st : IngestState) (papers2 : List Paper) (es : List IngestEvent)
    (hfail : paperAbstract fetch extract p = none)
    (hval : validSchedule fetch extract papers2 es = true)
    (hnodup : (papers2.map Paper.id).Nodup) :
    ((ingestRun fetch extract enc (papers.take k)).embeddings.length =
      (ingestRun fetch extract enc (papers.take k)).id_mapping.length) ∧
    ingestStep fetch extract enc st p = st ∧
    (catalogOf fetch extract papers2 es).length =
      (vectorsOf fetch extract enc papers2 es).length := by
  refine ⟨ingestFold_len fetch extract enc _ _ rfl, ?_, ?_⟩
  · unfold ingestStep
    rw [hfail]
  · rw [catalogOf_length fetch extract papers2 es hval hnodup,
      vectorsOf_length fetch extract enc papers2 es hval hnodup]

/-- C2 witness: one fetch-failing paper and a one-paper scheduled run. -/
theorem ingest_lengths_equal_witness :
    (paperAbstract c2Fetch (fun b => some b) c2FailPaper = none ∧
      validSchedule c2Fetch (fun b => some b) c2Papers c2Schedule = true ∧
      (c2Papers.map Paper.id).Nodup) ∧
    (((ingestRun c2Fetch (fun b => some b) (fun s => [(s.length : ℚ)])
        (c2Papers.take 1)).embeddings.length =
      (ingestRun c2Fetch (fun b => some b) (fun s => [(s.length : ℚ)])
        (c2Papers.take 1)).id_mapping.length) ∧
    ingestStep c2Fetch (fun b => some b) (fun s => [(s.length : ℚ)])
        ⟨[], []⟩ c2FailPaper = ⟨[], []⟩ ∧
    (catalogOf c2Fetch (fun b => some b) c2Papers c2Schedule).length =
      (vectorsOf c2Fetch (fun b => some b) (fun s => [(s.length : ℚ)])
        c2Papers c2Schedule).length) :=
  ⟨⟨by decide, by decide, by decide⟩,
    ingest_lengths_equal c2Fetch (fun b => some b) (fun s => [(s.length : ℚ)])
      c2Papers 1 c2FailPaper ⟨[], []⟩ c2Papers c2Schedule
      (by decide) (by decide) (by decide)⟩

/-- C1: the positional-coupling invariant FAILS on the thread-pool
ingestion of `scripts/extract_and_index.py`. The exhibited event trace is a
valid run — both papers succeed, each catalog line is written under the
lock before its future completes — yet catalog line 0 describes paper
`2301.00001` while vector 0 is the embedding of paper `2301.00002`'s
abstract, which differs from the embedding of the catalogued paper's
abstract. The lock serializes only the catalog writes; the vector appends
happen in `as_completed` order, so positions are not assigned in a single
total order. -/
theorem concurrent_coupling_code_bug :
    validSchedule c1Fetch c1Extract [c1PaperA, c1PaperB] c1Schedule = true ∧
    (catalogOf c1Fetch c1Extract [c1PaperA, c1PaperB] c1Schedule).get? 0 =
      some ⟨"2301.00001", "aaaaaaaaaaaaaaaaaaaaaaaa"⟩ ∧
    (vectorsOf c1Fetch c1Extract c1Enc [c1PaperA, c1PaperB]
        c1Schedule).get? 0 =
      some (c1Enc "bbbbbbbbbbbbbbbbbbbbbbbbbbbbbb") ∧
    c1Enc "bbbbbbbbbbbbbbbbbbbbbbbbbbbbbb" ≠
      c1Enc "aaaaaaaaaaaaaaaaaaaaaaaa" := by
  refine ⟨by decide, rfl, rfl, ?_⟩
  intro h
  simp only [c1Enc, List.cons.injEq, and_true] at h
  have h30 : ("bbbbbbbbbbbbbbbbbbbbbbbbbbbbbb" : String).length = 30 := rfl
  have h24 : ("aaaaaaaaaaaaaaaaaaaaaaaa" : String).length = 24 := rfl
  rw [h30, h24] at h
  norm_num at h
